import Mathlib

/-!
Verification of the tunnel supervision engine of ivikasavnish/easytunnel
(main.go) against its natural-language specification.

The Go source is shallowly embedded: strings are `List Char`, the external
world (process listings, port probes, network polls, the external ssh
process) is passed in explicitly as data, and stateful routines become pure
functions from a state and an observation to a new state plus a trace of
the observable effects (signals sent, sleeps, waits, broadcasts).
-/

/-- Strings are modelled as lists of characters. -/
abbrev Str := List Char

/-- Coerce a Lean string literal to the character-list model. -/
def str (s : String) : Str := s.data

/- ---------------------------------------------------------------------
   String helpers mirroring the Go `strings` package operations used by
   main.go: `strings.Contains` and `strings.Join`.
--------------------------------------------------------------------- -/

/-- Whether `pat` occurs at the very beginning of `s`. -/
def startsWithChars : Str → Str → Bool
  | _, [] => true
  | [], _ :: _ => false
  | c :: cs, d :: ds => c == d && startsWithChars cs ds

/-- Go `strings.Contains s sub`: `sub` occurs as a contiguous substring of `s`. -/
def containsSub : Str → Str → Bool
  | [], sub => sub.isEmpty
  | c :: cs, sub => startsWithChars (c :: cs) sub || containsSub cs sub

/-- Go `strings.Join elems sep`. -/
def strJoin (sep : Str) : List Str → Str
  | [] => []
  | [x] => x
  | x :: y :: xs => x ++ sep ++ strJoin sep (y :: xs)

/- ---------------------------------------------------------------------
   PortProbe: killProcessesOnPort (main.go lines 156-201).

   `getProcessesUsingPort` shells out to `lsof`; in the Go code it never
   returns a non-nil error (an lsof failure yields `[]int{}, nil`), so the
   error branch at the top of `killProcessesOnPort` is dead code.  The
   three successive `lsof` listings made during one `killProcessesOnPort`
   call are therefore modelled as three input lists.
--------------------------------------------------------------------- -/

/-- Kind of signal delivered via `kill`. -/
inductive SigKind
  | term
  | kill
deriving DecidableEq

/-- Observable effect of the port-reclamation routine. -/
inductive KillEv
  | signal : SigKind → Int → KillEv
  | sleepSec : Nat → KillEv
deriving DecidableEq

/-- Results of the three `getProcessesUsingPort` calls made (in order) by
`killProcessesOnPort`: the initial listing, the re-listing after the grace
period, and the final check. -/
structure PortEnv where
  ownersFirst : List Int
  ownersSecond : List Int
  ownersFinal : List Int
deriving DecidableEq

/-- Trace of signals/sleeps plus the success flag (`ok = false` models the
non-nil error return). -/
structure KillResult where
  events : List KillEv
  ok : Bool
deriving DecidableEq

/-- Embedding of `killProcessesOnPort` (main.go 156-201): TERM every initial
owner, sleep 2s, re-list, KILL every survivor, sleep 1s, fail iff the final
listing is nonempty.  Log statements are elided. -/
def killProcessesOnPort (env : PortEnv) : KillResult :=
  if env.ownersFirst.isEmpty then
    { events := [], ok := true }
  else
    { events :=
        env.ownersFirst.map (KillEv.signal .term) ++
          KillEv.sleepSec 2 :: env.ownersSecond.map (KillEv.signal .kill) ++
            [KillEv.sleepSec 1]
      ok := env.ownersFinal.isEmpty }

/- ---------------------------------------------------------------------
   Data model: TunnelConfig, Tunnel, TunnelStatus (main.go 39-56, 110-120).

   Times are nanoseconds since an arbitrary epoch, with 0 playing the role
   of Go's zero `time.Time` (`IsZero`).  `cmdPid = some p` models a non-nil
   `exec.Cmd` whose `Process` is non-nil with pid `p`; `none` models a nil
   command or process handle.  `cancelToken` models the stored
   `context.CancelFunc` (`some id` = non-nil).
--------------------------------------------------------------------- -/

structure TunnelConfig where
  name : Str
  command : Str
  localPort : Str
  enabled : Bool
  autoExtracted : Bool
deriving DecidableEq

structure Tunnel where
  config : TunnelConfig
  status : Str
  lastError : Str
  connectedAt : Nat
  cmdPid : Option Int
  cancelToken : Option Nat
  healthTicker : Bool
  lastHealthCheck : Nat
deriving DecidableEq

structure TunnelStatus where
  config : TunnelConfig
  status : Str
  lastError : Str
  connectedAt : Nat
  uptime : Option Nat
  pid : Int
  lastHealthCheck : Option Nat
deriving DecidableEq

/- ---------------------------------------------------------------------
   Tunnel.Start (main.go 402-428).  Launching the health-check goroutine
   and the maintenance goroutine is reported in the second component; a
   fresh cancellation context is modelled by the caller-supplied token.
--------------------------------------------------------------------- -/

/-- Embedding of `Tunnel.Start`: no-op when already connected/connecting,
otherwise cancel any stale context, store a fresh one, set status to
"connecting" and launch health monitoring plus the maintenance loop. -/
def tunnelStart (t : Tunnel) (freshToken : Nat) : Tunnel × Bool :=
  if t.status = str "connected" ∨ t.status = str "connecting" then
    (t, false)
  else
    ({ t with cancelToken := some freshToken
              status := str "connecting"
              healthTicker := true }, true)

/- ---------------------------------------------------------------------
   Tunnel.performHealthCheck (main.go 559-595).  The two probe results
   (`isPortOpen`, `isNetworkAvailable`) are passed in as observations.
--------------------------------------------------------------------- -/

/-- Embedding of `performHealthCheck`: always stamp `lastHealthCheck`; only
when status is "connected" run the three checks (process handle present,
local port open, network available) and on the first failure set status to
"error" with the corresponding message. -/
def performHealthCheck (t : Tunnel) (now : Nat) (portOpen netUp : Bool) : Tunnel :=
  let t0 := { t with lastHealthCheck := now }
  if t0.status ≠ str "connected" then t0
  else if t0.cmdPid.isNone then
    { t0 with status := str "error"
              lastError := str "SSH process terminated unexpectedly" }
  else if !portOpen then
    { t0 with status := str "error"
              lastError := str "Local port no longer accessible" }
  else if !netUp then
    { t0 with status := str "error"
              lastError := str "Network connectivity lost" }
  else t0

/- ---------------------------------------------------------------------
   Tunnel.maintain (main.go 451-538), one iteration of the supervision
   loop.  The environment observations of one iteration: the
   `isNetworkAvailable` probe, the `isSSHHostReachable` probe, and the
   outcome of `connect()` (whose internal argument construction is
   modelled separately by `enhanceArgs`; here it is abstracted by its
   boolean return and the tunnel state it leaves behind).
--------------------------------------------------------------------- -/

structure MaintainObs where
  networkAvailable : Bool
  sshReachable : Bool
  connectOk : Bool
  tunAfterConnect : Tunnel

/-- Observable effects of one `maintain` iteration. -/
inductive MEv
  | waitForNet
  | wait : Nat → MEv
  | connectAttempt
deriving DecidableEq

structure StepOut where
  retryDelay : Nat
  wasNetworkDown : Bool
  tun : Tunnel
  events : List MEv

/-- Embedding of one iteration of `Tunnel.maintain`.  `retryDelay` is in
seconds (initially 5, capped at 60).  The network-down branch records the
error, waits via `waitForNetwork` and continues without touching the
backoff; on an up-observation after a down period the backoff is reset to
2s; an unreachable SSH host waits the current backoff then doubles it; a
connection attempt is always followed by a wait of the current backoff,
after which the backoff is doubled on failure or set to 10s on success. -/
def maintainStep (rd : Nat) (wasDown : Bool) (tun : Tunnel) (obs : MaintainObs) : StepOut :=
  if !obs.networkAvailable then
    let tun' := if !wasDown then
        { tun with status := str "error"
                   lastError := str "Network unavailable - waiting for connection" }
      else tun
    { retryDelay := rd, wasNetworkDown := true, tun := tun', events := [MEv.waitForNet] }
  else
    let rd1 := if wasDown then 2 else rd
    if !obs.sshReachable then
      let tun' := { tun with status := str "error", lastError := str "SSH host unreachable" }
      { retryDelay := min (rd1 * 2) 60, wasNetworkDown := false, tun := tun'
        events := [MEv.wait rd1] }
    else
      -- Line 512: `if !wasNetworkDown { retryDelay = 5 }`.  At this point
      -- wasNetworkDown is always false (it was either false on entry or was
      -- just cleared by the recovery branch), so the guard always fires.
      let rd2 := 5
      let rd3 := if !obs.connectOk then min (rd2 * 2) 60 else 10
      { retryDelay := rd3, wasNetworkDown := false, tun := obs.tunAfterConnect
        events := [MEv.connectAttempt, MEv.wait rd2] }

/-- The durations of the backoff waits that occur before any connection
attempt in an event trace. -/
def waitsBeforeConnect (evs : List MEv) : List Nat :=
  (evs.takeWhile (fun e => decide (e ≠ MEv.connectAttempt))).filterMap
    (fun e => match e with
      | MEv.wait n => some n
      | _ => none)

/- ---------------------------------------------------------------------
   NetworkMonitor.monitor (main.go 1046-1082).  The poll results are the
   input list; the initial synchronous probe result is `initialPoll`.  An
   emitted event `(prev, cur)` stands for both the asynchronous callback
   invocations and the `network_change` broadcast, which the code fires
   under exactly the same condition.
--------------------------------------------------------------------- -/

/-- Embedding of the monitor loop: starting from the last known state,
each tick probes connectivity and, exactly when the result differs from
the last known state, notifies callbacks / broadcasts `(prev, cur)` and
updates the last known state. -/
def monitorEvents (last : Bool) : List Bool → List (Bool × Bool)
  | [] => []
  | p :: ps =>
    if p ≠ last then (last, p) :: monitorEvents p ps
    else monitorEvents last ps

/- ---------------------------------------------------------------------
   extractLocalPort (main.go 901-917).

   The two Go regular expressions are `-L\s+(\d+):` and
   `-L\s+(\d+):[\w\.-]+:\d+`.  Both require at least one whitespace
   character after `-L`.  Since all the character classes involved are
   pairwise disjoint from the literal characters that follow them, the
   regex match is equivalent to the deterministic longest-run scanners
   below (no backtracking can succeed where they fail).
--------------------------------------------------------------------- -/

/-- Go regexp `\s`: the ASCII whitespace class `[\t\n\f\r ]`. -/
def isSpaceGo (c : Char) : Bool :=
  c == ' ' || c == '\t' || c == '\n' || c == '\x0c' || c == '\r'

/-- Go regexp `\d`: decimal digits. -/
def isDigitGo (c : Char) : Bool :=
  decide ('0' ≤ c) && decide (c ≤ '9')

/-- Go regexp `\w`: `[0-9A-Za-z_]`. -/
def isWordGo (c : Char) : Bool :=
  (decide ('a' ≤ c) && decide (c ≤ 'z')) || (decide ('A' ≤ c) && decide (c ≤ 'Z')) ||
    isDigitGo c || c == '_'

/-- The class `[\w\.-]` of the second regular expression. -/
def isHostGo (c : Char) : Bool :=
  isWordGo c || c == '.' || c == '-'

/-- Try to match `-L\s+(\d+):` at the start of `s`, returning the digits. -/
def matchL1At : Str → Option Str
  | c1 :: c2 :: r =>
    if c1 = '-' ∧ c2 = 'L' then
      let ws := r.takeWhile isSpaceGo
      if ws.isEmpty then none
      else
        let r2 := r.dropWhile isSpaceGo
        let ds := r2.takeWhile isDigitGo
        if ds.isEmpty then none
        else if (r2.dropWhile isDigitGo).head? = some ':' then some ds
        else none
    else none
  | _ => none

/-- Leftmost match of `-L\s+(\d+):` (Go `FindStringSubmatch`). -/
def findL1 : Str → Option Str
  | [] => none
  | c :: cs =>
    match matchL1At (c :: cs) with
    | some ds => some ds
    | none => findL1 cs

/-- Try to match `-L\s+(\d+):[\w\.-]+:\d+` at the start of `s`. -/
def matchL2At : Str → Option Str
  | c1 :: c2 :: r =>
    if c1 = '-' ∧ c2 = 'L' then
      let ws := r.takeWhile isSpaceGo
      if ws.isEmpty then none
      else
        let r2 := r.dropWhile isSpaceGo
        let ds := r2.takeWhile isDigitGo
        if ds.isEmpty then none
        else if (r2.dropWhile isDigitGo).head? = some ':' then
          let r3 := (r2.dropWhile isDigitGo).tail
          if (r3.takeWhile isHostGo).isEmpty then none
          else if (r3.dropWhile isHostGo).head? = some ':' then
            if (((r3.dropWhile isHostGo).tail).takeWhile isDigitGo).isEmpty then none
            else some ds
          else none
        else none
    else none
  | _ => none

/-- Leftmost match of the second regular expression. -/
def findL2 : Str → Option Str
  | [] => none
  | c :: cs =>
    match matchL2At (c :: cs) with
    | some ds => some ds
    | none => findL2 cs

/-- Embedding of `extractLocalPort`: first regex, then the alternative
form; `none` models the `could not find local port in command` error. -/
def extractLocalPort (command : Str) : Option Str :=
  match findL1 command with
  | some p => some p
  | none => findL2 command

/- ---------------------------------------------------------------------
   Tunnel.connect — hardened flag augmentation (main.go 1859-1893; this is
   the later, authoritative version of `connect`).  The augmentation maps
   the parsed argument list to `"ssh"` followed by every hardened default
   whose marker substring is absent from the space-joined command, followed
   by the original arguments minus the first.
--------------------------------------------------------------------- -/

/-- The hardened defaults in the order `connect` checks them: a marker
substring that is tested with `strings.Contains` against the joined
command, and the argument(s) appended when it is absent. -/
def hardenedOpts : List (Str × List Str) :=
  [ (str "-N", [str "-N"]),
    (str "-T", [str "-T"]),
    (str "ServerAliveInterval", [str "-o", str "ServerAliveInterval=30"]),
    (str "ServerAliveCountMax", [str "-o", str "ServerAliveCountMax=3"]),
    (str "ExitOnForwardFailure", [str "-o", str "ExitOnForwardFailure=yes"]),
    (str "StrictHostKeyChecking", [str "-o", str "StrictHostKeyChecking=no"]),
    (str "UserKnownHostsFile", [str "-o", str "UserKnownHostsFile=/dev/null"]),
    (str "LogLevel", [str "-o", str "LogLevel=ERROR"]) ]

/-- The flags added for a given joined command string: each hardened
option contributes its arguments exactly when its marker is absent. -/
def addedFlagsList (cmdStr : Str) : List Str :=
  ((hardenedOpts.filter (fun p => !containsSub cmdStr p.1)).map (fun p => p.2)).flatten

/-- Embedding of the flag augmentation of `connect`: always start from
`"ssh"`, append the missing hardened defaults, then the original
arguments except the first. -/
def enhanceArgs (args : List Str) : List Str :=
  str "ssh" :: (addedFlagsList (strJoin (str " ") args) ++ args.tail)

/- ---------------------------------------------------------------------
   TunnelManager (main.go 59-66, 277-321): the tunnel collection is
   `map[string]*Tunnel`; it is modelled as an association list in
   insertion order (a deterministic stand-in for Go's unordered map).
   `savedConfigs` is the content of the persisted JSON store after the
   last `saveConfig`.
--------------------------------------------------------------------- -/

structure ManagerState where
  tunnels : List (Str × Tunnel)
  savedConfigs : List TunnelConfig
deriving DecidableEq

/-- Model of `tm.tunnels[name] = tunnel`: replace in place if the key
exists, otherwise append. -/
def mapInsert (m : List (Str × Tunnel)) (k : Str) (v : Tunnel) : List (Str × Tunnel) :=
  if m.any (fun p => p.1 == k) then
    m.map (fun p => if p.1 == k then (k, v) else p)
  else m ++ [(k, v)]

/-- Association-list lookup (`tm.tunnels[name]`). -/
def mapLookup (m : List (Str × Tunnel)) (k : Str) : Option Tunnel :=
  match m with
  | [] => none
  | p :: ps => if p.1 == k then some p.2 else mapLookup ps k

/-- The externally observed results of the port probes performed during
one `AddTunnel`/`ensurePortAvailable` run: `isPortAvailable` at the first
check, the reclamation listings, and `isPortAvailable` at the double-check
after cleanup. -/
structure PortWorld where
  firstAvailable : Bool
  availableOnRecheck : Bool
  reclaim : PortEnv
  secondAvailable : Bool
deriving DecidableEq

/-- Embedding of `ensurePortAvailable` (main.go 204-219): succeed at once
if the leading `isPortAvailable` re-probe now reports the port free,
otherwise run `killProcessesOnPort` (the privilege warning is log-only). -/
def ensurePortAvailable (w : PortWorld) : Bool :=
  if w.availableOnRecheck then true
  else (killProcessesOnPort w.reclaim).ok

/-- The fresh runtime tunnel `AddTunnel` builds for a config
(main.go 306-309: only `config` and `status` are set; the remaining
fields are Go zero values). -/
def freshTunnelFor (cfg : TunnelConfig) : Tunnel :=
  { config := cfg
    status := str "disconnected"
    lastError := []
    connectedAt := 0
    cmdPid := none
    cancelToken := none
    healthTicker := false
    lastHealthCheck := 0 }

/-- Embedding of `TunnelManager.AddTunnel` (main.go 277-321).  Returns the
new manager state and whether a `tunnel.Start()` goroutine was launched,
or the error message.  Formatted error payloads are elided from the
message texts. -/
def addTunnel (s : ManagerState) (cfg : TunnelConfig) (w : PortWorld) :
    Except Str (ManagerState × Bool) :=
  let cfgE : Except Str TunnelConfig :=
    if cfg.localPort.isEmpty then
      match extractLocalPort cfg.command with
      | none => .error (str "could not extract local port from command")
      | some p => .ok { cfg with localPort := p, autoExtracted := true }
    else .ok cfg
  match cfgE with
  | .error e => .error e
  | .ok cfg' =>
    let portOk : Except Str Unit :=
      if !w.firstAvailable then
        if !ensurePortAvailable w then .error (str "failed to free port")
        else if !w.secondAvailable then
          .error (str "port is still not available after cleanup attempt")
        else .ok ()
      else .ok ()
    match portOk with
    | .error e => .error e
    | .ok _ =>
      let tunnels' := mapInsert s.tunnels cfg'.name (freshTunnelFor cfg')
      .ok ({ tunnels := tunnels', savedConfigs := tunnels'.map (fun p => p.2.config) },
        cfg'.enabled)

/- ---------------------------------------------------------------------
   TunnelManager.GetStatus (main.go 1775-1817, the later, authoritative
   version) and the status broadcaster (main.go 1707-1772).

   The `Uptime` string field is modelled as `Option Nat`: `none` is the
   empty string, `some d` is the displayed string for the duration `d`
   (the connected duration rounded to the nearest second, in
   nanoseconds).  `LastHealthCheck` likewise: `none` is the empty string,
   `some ts` the formatted timestamp `ts`.
--------------------------------------------------------------------- -/

def nsPerSec : Nat := 1000000000

/-- Go `Duration.Round(time.Second)` for a non-negative duration: round
to the nearest multiple of a second, halves away from zero. -/
def roundToSecond (d : Nat) : Nat :=
  let r := d % nsPerSec
  if r + r < nsPerSec then d - r else d - r + nsPerSec

/-- The status snapshot `GetStatus` builds for one tunnel. -/
def statusOfTunnel (t : Tunnel) (now : Nat) : TunnelStatus :=
  let uptime : Option Nat :=
    if t.status = str "connected" ∧ t.connectedAt ≠ 0 then
      if now - t.connectedAt ≥ 5 * nsPerSec then
        some (roundToSecond (now - t.connectedAt))
      else none
    else none
  let pid : Int :=
    match t.cmdPid with
    | some p => p
    | none => 0
  { config := t.config
    status := t.status
    lastError := t.lastError
    connectedAt := t.connectedAt
    uptime := uptime
    pid := pid
    lastHealthCheck := if t.lastHealthCheck = 0 then none else some t.lastHealthCheck }

/-- Embedding of `TunnelManager.GetStatus`. -/
def getStatus (s : ManagerState) (now : Nat) : List TunnelStatus :=
  s.tunnels.map (fun p => statusOfTunnel p.2 now)

/-- The reduced fingerprint tracked by the status broadcaster
(`StatusSnapshot` in main.go 1713-1718): name, status, error, pid —
deliberately excluding volatile fields such as uptime. -/
structure StatusSnapshot where
  name : Str
  status : Str
  error : Str
  pid : Int
deriving DecidableEq

/-- Reduce a full status to its broadcast fingerprint (main.go 1731-1738). -/
def snapshotOf (ts : TunnelStatus) : StatusSnapshot :=
  { name := ts.config.name, status := ts.status, error := ts.lastError, pid := ts.pid }

/-- The broadcaster's change detection (main.go 1741-1763): the tunnel
count changed, or some position differs in name, status, error or pid. -/
def snapshotsChanged (current last : List StatusSnapshot) : Bool :=
  if current.length = last.length then
    (current.zip last).any (fun p => !(p.1 == p.2))
  else true

/-- One tick of `startStatusBroadcaster`: recompute the status list,
compare fingerprints, and broadcast (returning `true`) exactly when they
changed, in which case the stored fingerprints are replaced. -/
def broadcastTick (last : List StatusSnapshot) (s : ManagerState) (now : Nat) :
    List StatusSnapshot × Bool :=
  let current := (getStatus s now).map snapshotOf
  if snapshotsChanged current last then (current, true) else (last, false)

/- ---------------------------------------------------------------------
   Concrete inputs used by witnesses and counterexamples.
--------------------------------------------------------------------- -/

/-- A sample configuration used by concrete witnesses. -/
def sampleConfig : TunnelConfig :=
  { name := str "db"
    command := str "ssh -L 5432:internal:5432 user@host"
    localPort := str "5432"
    enabled := true
    autoExtracted := false }

/-- A sample connected tunnel used by concrete witnesses. -/
def sampleConnected : Tunnel :=
  { config := sampleConfig
    status := str "connected"
    lastError := []
    connectedAt := 100
    cmdPid := some 42
    cancelToken := some 1
    healthTicker := true
    lastHealthCheck := 0 }

/-- The duplicate-name configuration used to refute C2. -/
def dupConfig : TunnelConfig :=
  { name := str "db"
    command := str "ssh -L 9999:other:9999 user@host"
    localPort := str "9999"
    enabled := false
    autoExtracted := false }

/-- The port world in which every probe says the port is free. -/
def freeWorld : PortWorld :=
  { firstAvailable := true, availableOnRecheck := true, reclaim := ⟨[], [], []⟩
    secondAvailable := true }

/-- A typical parsed command line used to witness the augmentation. -/
def plainArgs : List Str :=
  [str "ssh", str "-L", str "5432:internal:5432", str "user@host"]

/- ---------------------------------------------------------------------
   Theorems
--------------------------------------------------------------------- -/

/-- C1: port reclamation is two-phase graceful-then-forceful.  With no
initial owners it succeeds without issuing any signal.  Otherwise the first
pass sends TERM (never KILL) to exactly the initial owners, then after the
2-second grace period KILL is sent only to the re-listed survivors, a final
1-second wait follows, and the call errors iff the final listing still has
an owner. -/
theorem killProcessesOnPort_two_phase (env : PortEnv) :
    (env.ownersFirst = [] → killProcessesOnPort env = { events := [], ok := true }) ∧
    (env.ownersFirst ≠ [] →
      ((killProcessesOnPort env).ok = true ↔ env.ownersFinal = []) ∧
      (∀ p : Int, KillEv.signal .kill p ∈ (killProcessesOnPort env).events →
        p ∈ env.ownersSecond) ∧
      (∀ p : Int, KillEv.signal .term p ∈ (killProcessesOnPort env).events →
        p ∈ env.ownersFirst) ∧
      (killProcessesOnPort env).events =
        env.ownersFirst.map (KillEv.signal .term) ++
          KillEv.sleepSec 2 :: env.ownersSecond.map (KillEv.signal .kill) ++
            [KillEv.sleepSec 1]) := by
  constructor
  · intro h
    simp [killProcessesOnPort, h]
  · intro h
    have hne : env.ownersFirst.isEmpty = false := by
      cases hf : env.ownersFirst with
      | nil => exact absurd hf h
      | cons a l => simp
    have hev : (killProcessesOnPort env).events =
        env.ownersFirst.map (KillEv.signal .term) ++
          KillEv.sleepSec 2 :: env.ownersSecond.map (KillEv.signal .kill) ++
            [KillEv.sleepSec 1] := by
      simp [killProcessesOnPort, hne]
    refine ⟨?_, ?_, ?_, hev⟩
    · simp [killProcessesOnPort, hne, List.isEmpty_iff]
    · intro p hp
      rw [hev] at hp
      simp at hp
      exact hp
    · intro p hp
      rw [hev] at hp
      simp at hp
      exact hp

/-- Witness for C1 at a concrete environment: one owner that survives TERM
but dies after KILL. -/
theorem killProcessesOnPort_two_phase_witness :
    ([3] : List Int) ≠ [] ∧
      ((killProcessesOnPort ⟨[3], [3], []⟩).ok = true ↔ ([] : List Int) = []) :=
  ⟨by decide, ((killProcessesOnPort_two_phase ⟨[3], [3], []⟩).2 (by decide)).1⟩


/-- C4: calling `Start` on a tunnel that is already "connecting" or
"connected" is a no-op: every field is left unchanged and no supervision
task or health checker is launched. -/
theorem tunnelStart_noop (t : Tunnel) (freshToken : Nat)
    (h : t.status = str "connected" ∨ t.status = str "connecting") :
    tunnelStart t freshToken = (t, false) := by
  simp [tunnelStart, h]

/-- Witness for C4 at a concrete connected tunnel. -/
theorem tunnelStart_noop_witness :
    (sampleConnected.status = str "connected" ∨ sampleConnected.status = str "connecting") ∧
      tunnelStart sampleConnected 7 = (sampleConnected, false) :=
  ⟨Or.inl rfl, tunnelStart_noop sampleConnected 7 (Or.inl rfl)⟩

/-- C5: a health check always stamps the last-check timestamp; when the
status is not "connected" it changes nothing else; when a check fails it
sets status to "error" with one of the three descriptive messages and
changes no field other than status and the error message — in particular
the process handle is never killed or replaced; and a passing check
changes nothing but the timestamp. -/
theorem performHealthCheck_frame (t : Tunnel) (now : Nat) (portOpen netUp : Bool) :
    (performHealthCheck t now portOpen netUp).lastHealthCheck = now ∧
    (t.status ≠ str "connected" →
      performHealthCheck t now portOpen netUp = { t with lastHealthCheck := now }) ∧
    (t.status = str "connected" →
      (t.cmdPid.isNone = true ∨ portOpen = false ∨ netUp = false) →
      (performHealthCheck t now portOpen netUp).status = str "error" ∧
      ((performHealthCheck t now portOpen netUp).lastError = str "SSH process terminated unexpectedly" ∨
       (performHealthCheck t now portOpen netUp).lastError = str "Local port no longer accessible" ∨
       (performHealthCheck t now portOpen netUp).lastError = str "Network connectivity lost") ∧
      (performHealthCheck t now portOpen netUp).cmdPid = t.cmdPid ∧
      (performHealthCheck t now portOpen netUp).config = t.config ∧
      (performHealthCheck t now portOpen netUp).connectedAt = t.connectedAt ∧
      (performHealthCheck t now portOpen netUp).cancelToken = t.cancelToken ∧
      (performHealthCheck t now portOpen netUp).healthTicker = t.healthTicker) ∧
    (t.status = str "connected" → t.cmdPid.isSome = true → portOpen = true → netUp = true →
      performHealthCheck t now portOpen netUp = { t with lastHealthCheck := now }) := by
  refine ⟨?_, ?_, ?_, ?_⟩
  · simp only [performHealthCheck]
    split_ifs <;> rfl
  · intro hs
    simp [performHealthCheck, hs]
  · intro hs hfail
    simp only [performHealthCheck]
    split_ifs with hg1 hg2 hg3 hg4
    · exact absurd hs hg1
    · simp
    · simp
    · simp
    · rcases hfail with hf | hf | hf <;> simp_all
  · intro hs hpid hopen hnet
    obtain ⟨p, hp⟩ := Option.isSome_iff_exists.mp hpid
    simp [performHealthCheck, hs, hp, hopen, hnet]

/-- Witness for C5: a connected tunnel whose process handle is gone. -/
theorem performHealthCheck_frame_witness :
    (sampleConnected.status = str "connected") ∧
      (performHealthCheck { sampleConnected with cmdPid := none } 50 true true).status =
        str "error" :=
  ⟨rfl,
    ((performHealthCheck_frame { sampleConnected with cmdPid := none } 50 true true).2.2.1
      rfl (Or.inl rfl)).1⟩

/-- C3: after a network-down observation followed by a network-up
observation, the down-time wait has not changed the backoff, the backoff
is reset to the short 2-second value, and any backoff wait occurring
before the next connection attempt uses that short value (when the SSH
host is reachable the connection attempt happens with no preceding wait at
all). -/
theorem maintain_backoff_reset (rd : Nat) (wasDown : Bool) (tun : Tunnel)
    (obs1 obs2 : MaintainObs)
    (h1 : obs1.networkAvailable = false) (h2 : obs2.networkAvailable = true) :
    (maintainStep rd wasDown tun obs1).retryDelay = rd ∧
    (maintainStep rd wasDown tun obs1).wasNetworkDown = true ∧
    (maintainStep rd wasDown tun obs1).events = [MEv.waitForNet] ∧
    (obs2.sshReachable = false →
      (maintainStep rd true (maintainStep rd wasDown tun obs1).tun obs2).events =
          [MEv.wait 2] ∧
      (maintainStep rd true (maintainStep rd wasDown tun obs1).tun obs2).retryDelay = 4) ∧
    (obs2.sshReachable = true →
      (maintainStep rd true (maintainStep rd wasDown tun obs1).tun obs2).events =
          [MEv.connectAttempt, MEv.wait 5]) ∧
    (∀ n ∈ waitsBeforeConnect
        ((maintainStep rd wasDown tun obs1).events ++
          (maintainStep rd true (maintainStep rd wasDown tun obs1).tun obs2).events),
      n = 2) := by
  refine ⟨?_, ?_, ?_, ?_, ?_, ?_⟩
  · simp [maintainStep, h1]
  · simp [maintainStep, h1]
  · simp [maintainStep, h1]
  · intro hssh
    constructor <;> simp [maintainStep, h1, h2, hssh]
  · intro hssh
    simp [maintainStep, h1, h2, hssh]
  · intro n hn
    cases hssh : obs2.sshReachable with
    | false =>
      simp [maintainStep, h1, h2, hssh, waitsBeforeConnect] at hn
      omega
    | true =>
      simp [maintainStep, h1, h2, hssh, waitsBeforeConnect] at hn

/-- Witness for C3: a concrete down observation followed by an up
observation with the SSH host unreachable. -/
theorem maintain_backoff_reset_witness :
    (MaintainObs.mk false true true sampleConnected).networkAvailable = false ∧
      (maintainStep 60 false sampleConnected (MaintainObs.mk false true true sampleConnected)).retryDelay = 60 :=
  ⟨rfl,
    (maintain_backoff_reset 60 false sampleConnected
      (MaintainObs.mk false true true sampleConnected)
      (MaintainObs.mk true false true sampleConnected) rfl rfl).1⟩

/-- C8: the network monitor fires callback/broadcast events exactly at
observed up/down transitions: the event list equals the list of adjacent
state pairs that differ (so a poll equal to the previous state fires
nothing), every emitted event is a genuine transition, and the initial
observation alone fires nothing. -/
theorem monitor_events_iff_transition (init : Bool) (polls : List Bool) :
    monitorEvents init polls =
      ((init :: polls).zip polls).filter (fun p => decide (p.1 ≠ p.2)) ∧
    (∀ e ∈ monitorEvents init polls, e.1 ≠ e.2) ∧
    monitorEvents init [] = [] := by
  have hmain : ∀ (b : Bool) (ps : List Bool),
      monitorEvents b ps = ((b :: ps).zip ps).filter (fun p => decide (p.1 ≠ p.2)) := by
    intro b ps
    induction ps generalizing b with
    | nil => simp [monitorEvents]
    | cons p ps ih =>
      by_cases h : p = b
      · subst h
        simp [monitorEvents, ih]
      · have hne : p ≠ b := h
        have hne' : b ≠ p := fun hb => h hb.symm
        simp [monitorEvents, hne, hne', ih]
  refine ⟨hmain init polls, ?_, by simp [monitorEvents]⟩
  intro e he
  rw [hmain init polls] at he
  exact of_decide_eq_true (List.mem_filter.mp he).2

/-- Witness for C8: one down poll after an up initial state yields the
single transition event `(true, false)`. -/
theorem monitor_events_iff_transition_witness :
    (true, false) ∈ monitorEvents true [false] ∧ (true : Bool) ≠ false :=
  ⟨by decide, (monitor_events_iff_transition true [false]).2.1 (true, false) (by decide)⟩

/-- C7: in a status snapshot, the uptime field is empty unless the tunnel
is "connected" with a nonzero connection time and has been connected for
at least the 5-second stability window, in which case it is the connected
duration rounded to the nearest second; and every snapshot `GetStatus`
produces is of this form. -/
theorem getStatus_uptime (t : Tunnel) (now : Nat) :
    (t.status ≠ str "connected" → (statusOfTunnel t now).uptime = none) ∧
    (t.connectedAt = 0 → (statusOfTunnel t now).uptime = none) ∧
    (now - t.connectedAt < 5 * nsPerSec → (statusOfTunnel t now).uptime = none) ∧
    (t.status = str "connected" → t.connectedAt ≠ 0 →
      now - t.connectedAt ≥ 5 * nsPerSec →
      (statusOfTunnel t now).uptime = some (roundToSecond (now - t.connectedAt))) ∧
    (∀ s : ManagerState, ∀ ts ∈ getStatus s now,
      ∃ p ∈ s.tunnels, ts = statusOfTunnel p.2 now) := by
  refine ⟨?_, ?_, ?_, ?_, ?_⟩
  · intro h
    simp [statusOfTunnel, h]
  · intro h
    simp [statusOfTunnel, h]
  · intro h
    simp only [statusOfTunnel]
    split_ifs with h1 h2
    · omega
    · rfl
    · rfl
  · intro h1 h2 h3
    simp [statusOfTunnel, h1, h2, h3]
  · intro s ts hts
    rcases List.mem_map.mp hts with ⟨p, hp, heq⟩
    exact ⟨p, hp, heq.symm⟩

/-- Witness for C7: a tunnel connected for exactly 5 seconds shows the
rounded uptime. -/
theorem getStatus_uptime_witness :
    ({ sampleConnected with connectedAt := 1 } : Tunnel).status = str "connected" ∧
      (statusOfTunnel { sampleConnected with connectedAt := 1 } (1 + 5 * nsPerSec)).uptime =
        some (roundToSecond (1 + 5 * nsPerSec - 1)) :=
  ⟨rfl,
    (getStatus_uptime { sampleConnected with connectedAt := 1 } (1 + 5 * nsPerSec)).2.2.2.1
      rfl (by decide) (by norm_num [nsPerSec])⟩

/-- The broadcaster's change detector fires exactly on fingerprint
inequality. -/
theorem snapshotsChanged_iff (c l : List StatusSnapshot) :
    snapshotsChanged c l = true ↔ c ≠ l := by
  have hzip : ∀ (c l : List StatusSnapshot), c.length = l.length →
      (((c.zip l).any (fun p => !(p.1 == p.2))) = true ↔ c ≠ l) := by
    intro c
    induction c with
    | nil =>
      intro l hl
      cases l with
      | nil => simp
      | cons b bs => simp at hl
    | cons a as ih =>
      intro l hl
      cases l with
      | nil => simp at hl
      | cons b bs =>
        have hlen : as.length = bs.length := by simpa using hl
        simp only [List.zip_cons_cons, List.any_cons, Bool.or_eq_true]
        constructor
        · rintro (hab | hrest)
          · intro hcontra
            have : a = b := by
              injection hcontra
            simp [this] at hab
          · intro hcontra
            have h2 : as = bs := by
              injection hcontra
            exact absurd h2 ((ih bs hlen).mp hrest)
        · intro hne
          by_cases hab : a = b
          · subst hab
            have : as ≠ bs := fun h => hne (by rw [h])
            exact Or.inr ((ih bs hlen).mpr this)
          · left
            simpa using hab
  unfold snapshotsChanged
  by_cases hl : c.length = l.length
  · simpa [hl] using hzip c l hl
  · simp only [hl, if_neg, if_false]
    constructor
    · intro _ hcl
      exact hl (by rw [hcl])
    · intro _
      trivial

/-- C6: a broadcaster tick emits a `status_update` broadcast iff the
reduced fingerprint (name, status, error, pid per tunnel) differs from the
stored one — identical fingerprints yield no broadcast, any difference
yields exactly the one broadcast of that tick — the stored fingerprint is
replaced exactly when a broadcast happens, and the fingerprint ignores the
volatile uptime field. -/
theorem broadcastTick_fires_iff_changed (last : List StatusSnapshot) (s : ManagerState)
    (now : Nat) :
    ((broadcastTick last s now).2 = true ↔ (getStatus s now).map snapshotOf ≠ last) ∧
    (broadcastTick last s now).1 =
      (if (broadcastTick last s now).2 then (getStatus s now).map snapshotOf else last) ∧
    (∀ ts : TunnelStatus, ∀ u : Option Nat,
      snapshotOf { ts with uptime := u } = snapshotOf ts) := by
  refine ⟨?_, ?_, ?_⟩
  · unfold broadcastTick
    by_cases h : snapshotsChanged ((getStatus s now).map snapshotOf) last = true
    · simp only [h, if_pos]
      simpa using (snapshotsChanged_iff _ _).mp h
    · have hfalse : snapshotsChanged ((getStatus s now).map snapshotOf) last = false :=
        Bool.eq_false_iff.mpr h
      have heq : (getStatus s now).map snapshotOf = last := by
        by_contra hne
        exact h ((snapshotsChanged_iff _ _).mpr hne)
      have hself : snapshotsChanged last last = false := heq ▸ hfalse
      simp [heq, hself]
  · unfold broadcastTick
    by_cases h : snapshotsChanged ((getStatus s now).map snapshotOf) last = true
    · simp [h]
    · have hfalse : snapshotsChanged ((getStatus s now).map snapshotOf) last = false :=
        Bool.eq_false_iff.mpr h
      simp [hfalse]
  · intro ts u
    rfl

/-- Witness for C6: with an empty stored fingerprint and one tunnel, the
tick broadcasts. -/
theorem broadcastTick_fires_iff_changed_witness :
    (broadcastTick [] ⟨[(str "db", sampleConnected)], [sampleConfig]⟩ 0).2 = true :=
  (broadcastTick_fires_iff_changed [] ⟨[(str "db", sampleConnected)], [sampleConfig]⟩ 0).1.mpr
    (by decide)


/-- Counterexample to C2: adding a config whose name `"db"` is already in
the collection is not rejected — it succeeds and overwrites the existing
tunnel and the persisted store. -/
theorem addTunnel_name_collision_counterexample :
    addTunnel ⟨[(str "db", sampleConnected)], [sampleConfig]⟩ dupConfig freeWorld =
      .ok (⟨[(str "db", freshTunnelFor dupConfig)], [dupConfig]⟩, false) ∧
    freshTunnelFor dupConfig ≠ sampleConnected ∧
    [dupConfig] ≠ [sampleConfig] := by
  refine ⟨?_, by decide, by decide⟩
  rfl

/-- C2 amended: `AddTunnel` performs no name-collision check.  When the
new config carries a local port and the port is free, adding a config
whose name is already present succeeds, replaces the existing entry (in
place) by a fresh disconnected tunnel for the new config, persists the
updated collection, and reports whether the tunnel was started. -/
theorem addTunnel_overwrites_on_collision (s : ManagerState) (cfg : TunnelConfig)
    (w : PortWorld) (hport : cfg.localPort ≠ []) (hfree : w.firstAvailable = true)
    (hdup : s.tunnels.any (fun p => p.1 == cfg.name) = true) :
    addTunnel s cfg w =
      .ok ({ tunnels := s.tunnels.map
               (fun p => if p.1 == cfg.name then (cfg.name, freshTunnelFor cfg) else p)
             savedConfigs := (s.tunnels.map
               (fun p => if p.1 == cfg.name then (cfg.name, freshTunnelFor cfg) else p)).map
                 (fun p => p.2.config) },
        cfg.enabled) := by
  have hne : cfg.localPort.isEmpty = false := by
    cases h : cfg.localPort with
    | nil => exact absurd h hport
    | cons a l => simp
  simp [addTunnel, hne, hfree, mapInsert, hdup]

/-- Witness for C2's amended statement at the concrete collision input. -/
theorem addTunnel_overwrites_on_collision_witness :
    (dupConfig.localPort ≠ [] ∧
      ([(str "db", sampleConnected)] : List (Str × Tunnel)).any
        (fun p => p.1 == dupConfig.name) = true) ∧
    addTunnel ⟨[(str "db", sampleConnected)], [sampleConfig]⟩ dupConfig freeWorld =
      .ok ({ tunnels := [(str "db", sampleConnected)].map
               (fun p => if p.1 == dupConfig.name then (dupConfig.name, freshTunnelFor dupConfig) else p)
             savedConfigs := ([(str "db", sampleConnected)].map
               (fun p => if p.1 == dupConfig.name then (dupConfig.name, freshTunnelFor dupConfig) else p)).map
                 (fun p => p.2.config) },
        dupConfig.enabled) :=
  ⟨⟨by decide, by decide⟩,
    addTunnel_overwrites_on_collision ⟨[(str "db", sampleConnected)], [sampleConfig]⟩
      dupConfig freeWorld (by decide) rfl (by decide)⟩

/-- A head match survives appending on the right. -/
theorem startsWithChars_append (s t b : Str) (h : startsWithChars s t = true) :
    startsWithChars (s ++ b) t = true := by
  induction t generalizing s with
  | nil =>
    cases s <;> simp [startsWithChars]
  | cons d ds ih =>
    cases s with
    | nil => simp [startsWithChars] at h
    | cons c cs =>
      simp only [startsWithChars, Bool.and_eq_true] at h
      simp only [List.cons_append, startsWithChars, Bool.and_eq_true]
      exact ⟨h.1, ih cs h.2⟩

/-- The empty string occurs in every string. -/
theorem containsSub_nil_pat (s : Str) : containsSub s [] = true := by
  cases s <;> simp [containsSub, startsWithChars]

/-- An occurrence in `a` is an occurrence in `a ++ b`. -/
theorem containsSub_append_left (a b t : Str) (h : containsSub a t = true) :
    containsSub (a ++ b) t = true := by
  induction a with
  | nil =>
    have ht : t = [] := by simpa [containsSub, List.isEmpty_iff] using h
    subst ht
    exact containsSub_nil_pat b
  | cons c cs ih =>
    simp only [containsSub, Bool.or_eq_true] at h
    simp only [List.cons_append, containsSub, Bool.or_eq_true]
    rcases h with h | h
    · exact Or.inl (startsWithChars_append (c :: cs) t b h)
    · exact Or.inr (ih h)

/-- An occurrence in `b` is an occurrence in `a ++ b`. -/
theorem containsSub_append_right (a b t : Str) (h : containsSub b t = true) :
    containsSub (a ++ b) t = true := by
  induction a with
  | nil => exact h
  | cons c cs ih =>
    simp only [List.cons_append, containsSub, Bool.or_eq_true]
    exact Or.inr ih

/-- An occurrence in the join of a suffix list is an occurrence in the
join of the full list. -/
theorem containsSub_strJoin_suffix (sep : Str) (l1 l2 : List Str) (t : Str)
    (h : containsSub (strJoin sep l2) t = true) :
    containsSub (strJoin sep (l1 ++ l2)) t = true := by
  induction l1 with
  | nil => exact h
  | cons a l1' ih =>
    cases hll : l1' ++ l2 with
    | nil =>
      have h2 : l2 = [] := (List.append_eq_nil.mp hll).2
      rw [h2] at h
      have ht : t = [] := by simpa [strJoin, containsSub, List.isEmpty_iff] using h
      subst ht
      exact containsSub_nil_pat _
    | cons y ys =>
      have ih' : containsSub (strJoin sep (y :: ys)) t = true := by
        rw [← hll]
        exact ih
      have step : containsSub (a ++ (sep ++ strJoin sep (y :: ys))) t = true :=
        containsSub_append_right _ _ _ (containsSub_append_right _ _ _ ih')
      show containsSub (strJoin sep ((a :: l1') ++ l2)) t = true
      rw [List.cons_append, hll]
      simpa [strJoin] using step

/-- An occurrence in a member of a list is an occurrence in its join. -/
theorem containsSub_strJoin_mem (sep : Str) (l : List Str) (x t : Str)
    (hx : x ∈ l) (h : containsSub x t = true) :
    containsSub (strJoin sep l) t = true := by
  induction l with
  | nil => exact absurd hx (List.not_mem_nil x)
  | cons a as ih =>
    rcases List.mem_cons.mp hx with rfl | hmem
    · cases as with
      | nil => simpa [strJoin] using h
      | cons y ys =>
        have step : containsSub (x ++ (sep ++ strJoin sep (y :: ys))) t = true :=
          containsSub_append_left _ _ _ h
        simpa [strJoin] using step
    · cases as with
      | nil => exact absurd hmem (List.not_mem_nil x)
      | cons y ys =>
        have step : containsSub (a ++ (sep ++ strJoin sep (y :: ys))) t = true :=
          containsSub_append_right _ _ _ (containsSub_append_right _ _ _ (ih hmem))
        simpa [strJoin] using step

/-- No argument appended for one hardened option contains the marker of a
different hardened option. -/
theorem hardenedOpts_distinct :
    ∀ p ∈ hardenedOpts, ∀ q ∈ hardenedOpts, ∀ x ∈ q.2,
      containsSub x p.1 = true → p = q := by
  decide

/-- Every hardened option appends at least one argument that contains its
own marker substring. -/
theorem hardenedOpts_carrier :
    ∀ p ∈ hardenedOpts, ∃ x ∈ p.2, containsSub x p.1 = true := by
  decide

/-- Counterexample to C9 as stated: the augmentation is not idempotent for
every argument list.  For `["ssh-N"]` (accepted by the `connect`
validation, since its head contains `"ssh"`) the `-N` occurrence lives in
the first argument, which the augmentation discards, so a second pass
re-adds `-N`. -/
theorem enhanceArgs_not_idempotent :
    enhanceArgs (enhanceArgs [str "ssh-N"]) ≠ enhanceArgs [str "ssh-N"] := by
  decide

/-- C9 amended: each hardened option is appended exactly when the joined
command does not already contain its marker substring (never when
present), and the augmentation is idempotent for every argument list in
which each marker present in the joined command also occurs in the joined
tail — i.e. not only inside the first argument, which the augmentation
replaces by `"ssh"`. -/
theorem enhanceArgs_hardening (args : List Str)
    (H : ∀ p ∈ hardenedOpts, containsSub (strJoin (str " ") args) p.1 = true →
      containsSub (strJoin (str " ") args.tail) p.1 = true) :
    (∀ p ∈ hardenedOpts, containsSub (strJoin (str " ") args) p.1 = false →
      ∀ x ∈ p.2, x ∈ enhanceArgs args) ∧
    (∀ p ∈ hardenedOpts, containsSub (strJoin (str " ") args) p.1 = true →
      ∀ x ∈ p.2, containsSub x p.1 = true →
        x ∉ addedFlagsList (strJoin (str " ") args)) ∧
    enhanceArgs (enhanceArgs args) = enhanceArgs args := by
  refine ⟨?_, ?_, ?_⟩
  · intro p hp habs x hx
    have hfilter : p ∈ hardenedOpts.filter
        (fun q => !containsSub (strJoin (str " ") args) q.1) :=
      List.mem_filter.mpr ⟨hp, by simp [habs]⟩
    have hmem : x ∈ addedFlagsList (strJoin (str " ") args) := by
      unfold addedFlagsList
      exact List.mem_flatten.mpr ⟨p.2, List.mem_map.mpr ⟨p, hfilter, rfl⟩, hx⟩
    unfold enhanceArgs
    exact List.mem_cons.mpr (Or.inr (List.mem_append.mpr (Or.inl hmem)))
  · intro p hp hpres x hx hxcont hmem
    unfold addedFlagsList at hmem
    rcases List.mem_flatten.mp hmem with ⟨l2, hl2, hxl2⟩
    rcases List.mem_map.mp hl2 with ⟨q, hqf, rfl⟩
    have hq := List.mem_filter.mp hqf
    have hqabs : containsSub (strJoin (str " ") args) q.1 = false := by
      simpa using hq.2
    have hpq : p = q := hardenedOpts_distinct p hp q hq.1 x hxl2 hxcont
    rw [hpq] at hpres
    rw [hpres] at hqabs
    exact absurd hqabs (by decide)
  · have hall : ∀ p ∈ hardenedOpts,
        containsSub (strJoin (str " ") (enhanceArgs args)) p.1 = true := by
      intro p hp
      by_cases hc1 : containsSub (strJoin (str " ") args) p.1 = true
      · have htail := H p hp hc1
        have hshape : enhanceArgs args =
            (str "ssh" :: addedFlagsList (strJoin (str " ") args)) ++ args.tail := by
          simp [enhanceArgs]
        rw [hshape]
        exact containsSub_strJoin_suffix _ _ _ _ htail
      · have habs : containsSub (strJoin (str " ") args) p.1 = false :=
          Bool.eq_false_iff.mpr hc1
        rcases hardenedOpts_carrier p hp with ⟨x, hx2, hxc⟩
        have hxin : x ∈ enhanceArgs args := by
          unfold enhanceArgs
          refine List.mem_cons.mpr (Or.inr (List.mem_append.mpr (Or.inl ?_)))
          unfold addedFlagsList
          exact List.mem_flatten.mpr
            ⟨p.2, List.mem_map.mpr ⟨p, List.mem_filter.mpr ⟨hp, by simp [habs]⟩, rfl⟩, hx2⟩
        exact containsSub_strJoin_mem _ _ _ _ hxin hxc
    have hfilterNil : hardenedOpts.filter
        (fun q => !containsSub (strJoin (str " ") (enhanceArgs args)) q.1) = [] := by
      rw [List.filter_eq_nil_iff]
      intro q hq
      simp [hall q hq]
    have hadded : addedFlagsList (strJoin (str " ") (enhanceArgs args)) = [] := by
      unfold addedFlagsList
      rw [hfilterNil]
      rfl
    have htail2 : (enhanceArgs args).tail =
        addedFlagsList (strJoin (str " ") args) ++ args.tail := by
      simp [enhanceArgs]
    calc enhanceArgs (enhanceArgs args)
        = str "ssh" :: (addedFlagsList (strJoin (str " ") (enhanceArgs args)) ++
            (enhanceArgs args).tail) := rfl
      _ = str "ssh" :: ([] ++ (addedFlagsList (strJoin (str " ") args) ++ args.tail)) := by
          rw [hadded, htail2]
      _ = enhanceArgs args := by simp [enhanceArgs]

/-- Witness for C9's amended statement: a typical tunnel command satisfies
the hypothesis (no marker occurs only in the head), and on it the
augmentation is idempotent. -/
theorem enhanceArgs_hardening_witness :
    (∀ p ∈ hardenedOpts, containsSub (strJoin (str " ") plainArgs) p.1 = true →
      containsSub (strJoin (str " ") plainArgs.tail) p.1 = true) ∧
    enhanceArgs (enhanceArgs plainArgs) = enhanceArgs plainArgs :=
  ⟨by decide, (enhanceArgs_hardening plainArgs (by decide)).2.2⟩

/-- The `takeWhile`/`dropWhile` of an append split exactly at the boundary
when the left part satisfies the predicate throughout and the right part
does not start with a satisfying character. -/
theorem takeWhile_app (p : Char → Bool) (l1 l2 : Str)
    (h1 : ∀ c ∈ l1, p c = true) (h2 : ∀ c, l2.head? = some c → p c = false) :
    (l1 ++ l2).takeWhile p = l1 ∧ (l1 ++ l2).dropWhile p = l2 := by
  induction l1 with
  | nil =>
    cases l2 with
    | nil => simp
    | cons c cs =>
      have hc := h2 c rfl
      simp [List.takeWhile_cons, List.dropWhile_cons, hc]
  | cons a l1' ih =>
    have ha : p a = true := h1 a (List.mem_cons_self a l1')
    obtain ⟨iht, ihd⟩ := ih (fun c hc => h1 c (List.mem_cons_of_mem a hc))
    simp [List.takeWhile_cons, List.dropWhile_cons, ha, iht, ihd]

/-- A decimal digit is not in the whitespace class. -/
theorem isDigitGo_not_space (c : Char) (h : isDigitGo c = true) : isSpaceGo c = false := by
  simp only [isDigitGo, Bool.and_eq_true, decide_eq_true_eq] at h
  simp only [isSpaceGo, Bool.or_eq_false_iff, beq_eq_false_iff_ne, ne_eq]
  refine ⟨⟨⟨⟨?_, ?_⟩, ?_⟩, ?_⟩, ?_⟩ <;>
    (rintro rfl; exact absurd h (by decide))

/-- A list whose optional head is `':'` is a `':'`-cons. -/
theorem head?_colon_exists (l : Str) (h : l.head? = some ':') : ∃ t, l = ':' :: t := by
  cases l with
  | nil => simp at h
  | cons x xs =>
    have hx : x = ':' := by simpa using h
    exact ⟨xs, by rw [hx]⟩

/-- Soundness of the first regex matcher: a match at the head decomposes
the string as `-L`, nonempty whitespace, the returned nonempty digits, and
a colon. -/
theorem matchL1At_sound (s ds : Str) (h : matchL1At s = some ds) :
    ∃ ws suf, s = '-' :: 'L' :: (ws ++ ds ++ ':' :: suf) ∧ ws ≠ [] ∧
      (∀ c ∈ ws, isSpaceGo c = true) ∧ ds ≠ [] ∧ (∀ c ∈ ds, isDigitGo c = true) := by
  cases s with
  | nil => simp [matchL1At] at h
  | cons c1 s1 =>
    cases s1 with
    | nil => simp [matchL1At] at h
    | cons c2 r =>
      simp only [matchL1At] at h
      by_cases hcl : c1 = '-' ∧ c2 = 'L'
      · rw [if_pos hcl] at h
        obtain ⟨rfl, rfl⟩ := hcl
        by_cases hws : (r.takeWhile isSpaceGo).isEmpty
        · rw [if_pos hws] at h
          exact absurd h (by simp)
        · rw [if_neg hws] at h
          by_cases hds : ((r.dropWhile isSpaceGo).takeWhile isDigitGo).isEmpty
          · rw [if_pos hds] at h
            exact absurd h (by simp)
          · rw [if_neg hds] at h
            by_cases hcolon : ((r.dropWhile isSpaceGo).dropWhile isDigitGo).head? = some ':'
            · rw [if_pos hcolon] at h
              have hds_eq : (r.dropWhile isSpaceGo).takeWhile isDigitGo = ds :=
                Option.some.inj h
              obtain ⟨suf, hsuf⟩ := head?_colon_exists _ hcolon
              refine ⟨r.takeWhile isSpaceGo, suf, ?_, ?_, ?_, ?_, ?_⟩
              · have e2 : r.dropWhile isSpaceGo = ds ++ ':' :: suf := by
                  conv_lhs =>
                    rw [← List.takeWhile_append_dropWhile (p := isDigitGo)
                      (l := r.dropWhile isSpaceGo)]
                  rw [hds_eq, hsuf]
                have e1 : r = r.takeWhile isSpaceGo ++ (ds ++ ':' :: suf) := by
                  conv_lhs =>
                    rw [← List.takeWhile_append_dropWhile (p := isSpaceGo) (l := r)]
                  rw [e2]
                rw [List.append_assoc]
                exact congrArg (fun l => '-' :: 'L' :: l) e1
              · intro hnil
                exact hws (by rw [hnil]; rfl)
              · intro cc hcc
                exact List.mem_takeWhile_imp hcc
              · intro hnil
                exact hds (by rw [hds_eq, hnil]; rfl)
              · intro cc hcc
                rw [← hds_eq] at hcc
                exact List.mem_takeWhile_imp hcc
            · rw [if_neg hcolon] at h
              exact absurd h (by simp)
      · rw [if_neg hcl] at h
        exact absurd h (by simp)

/-- Completeness of the first regex matcher on a decomposed input. -/
theorem matchL1At_complete (ws ds suf : Str) (hws : ws ≠ [])
    (hwsall : ∀ c ∈ ws, isSpaceGo c = true) (hds : ds ≠ [])
    (hdsall : ∀ c ∈ ds, isDigitGo c = true) :
    matchL1At ('-' :: 'L' :: (ws ++ ds ++ ':' :: suf)) = some ds := by
  have hhead1 : ∀ c, (ds ++ ':' :: suf).head? = some c → isSpaceGo c = false := by
    intro c hc
    cases ds with
    | nil => exact absurd rfl hds
    | cons d ds' =>
      have hdc : d = c := by simpa using hc
      rw [← hdc]
      exact isDigitGo_not_space d (hdsall d (List.mem_cons_self d ds'))
  have hsplit1 := takeWhile_app isSpaceGo ws (ds ++ ':' :: suf) hwsall hhead1
  have hhead2 : ∀ c, (':' :: suf).head? = some c → isDigitGo c = false := by
    intro c hc
    have hdc : ':' = c := by simpa using hc
    rw [← hdc]
    decide
  have hsplit2 := takeWhile_app isDigitGo ds (':' :: suf) hdsall hhead2
  have hwsE : ws.isEmpty = false := by
    cases ws with
    | nil => exact absurd rfl hws
    | cons a l => rfl
  have hdsE : ds.isEmpty = false := by
    cases ds with
    | nil => exact absurd rfl hds
    | cons a l => rfl
  simp [matchL1At, List.append_assoc, hsplit1.1, hsplit1.2, hsplit2.1, hsplit2.2,
    hwsE, hdsE]

/-- Soundness of the leftmost search for the first regex. -/
theorem findL1_sound (s ds : Str) (h : findL1 s = some ds) :
    ∃ pre ws suf, s = pre ++ '-' :: 'L' :: (ws ++ ds ++ ':' :: suf) ∧ ws ≠ [] ∧
      (∀ c ∈ ws, isSpaceGo c = true) ∧ ds ≠ [] ∧ (∀ c ∈ ds, isDigitGo c = true) := by
  induction s with
  | nil => simp [findL1] at h
  | cons c cs ih =>
    cases hm : matchL1At (c :: cs) with
    | some p =>
      have hp : p = ds := by
        have h' := h
        simp [findL1, hm] at h'
        exact h'
      subst hp
      rcases matchL1At_sound _ _ hm with ⟨ws, suf, heq, h1, h2, h3, h4⟩
      exact ⟨[], ws, suf, by simpa using heq, h1, h2, h3, h4⟩
    | none =>
      have h' : findL1 cs = some ds := by simpa [findL1, hm] using h
      rcases ih h' with ⟨pre, ws, suf, heq, h1, h2, h3, h4⟩
      exact ⟨c :: pre, ws, suf, by simp [heq], h1, h2, h3, h4⟩

/-- A head match anywhere guarantees the leftmost search succeeds. -/
theorem findL1_append_isSome (l1 l2 : Str) (h : (matchL1At l2).isSome = true) :
    (findL1 (l1 ++ l2)).isSome = true := by
  induction l1 with
  | nil =>
    cases l2 with
    | nil => simp [matchL1At] at h
    | cons c cs =>
      cases hm : matchL1At (c :: cs) with
      | some ds => simp [findL1, hm]
      | none =>
        rw [hm] at h
        simp at h
  | cons a l1' ih =>
    show (findL1 (a :: (l1' ++ l2))).isSome = true
    cases hm : matchL1At (a :: (l1' ++ l2)) with
    | some ds => simp [findL1, hm]
    | none => simpa [findL1, hm] using ih

/-- Soundness of the second regex matcher: its matches also contain the
spaced `-L <digits>:` shape (the extra tail structure only constrains the
remainder). -/
theorem matchL2At_sound (s ds : Str) (h : matchL2At s = some ds) :
    ∃ ws suf, s = '-' :: 'L' :: (ws ++ ds ++ ':' :: suf) ∧ ws ≠ [] ∧
      (∀ c ∈ ws, isSpaceGo c = true) ∧ ds ≠ [] ∧ (∀ c ∈ ds, isDigitGo c = true) := by
  cases s with
  | nil => simp [matchL2At] at h
  | cons c1 s1 =>
    cases s1 with
    | nil => simp [matchL2At] at h
    | cons c2 r =>
      simp only [matchL2At] at h
      by_cases hcl : c1 = '-' ∧ c2 = 'L'
      · rw [if_pos hcl] at h
        obtain ⟨rfl, rfl⟩ := hcl
        by_cases hws : (r.takeWhile isSpaceGo).isEmpty
        · rw [if_pos hws] at h
          exact absurd h (by simp)
        · rw [if_neg hws] at h
          by_cases hds : ((r.dropWhile isSpaceGo).takeWhile isDigitGo).isEmpty
          · rw [if_pos hds] at h
            exact absurd h (by simp)
          · rw [if_neg hds] at h
            by_cases hcolon : ((r.dropWhile isSpaceGo).dropWhile isDigitGo).head? = some ':'
            · rw [if_pos hcolon] at h
              have hds_eq : (r.dropWhile isSpaceGo).takeWhile isDigitGo = ds := by
                by_cases hw :
                    ((((r.dropWhile isSpaceGo).dropWhile isDigitGo).tail).takeWhile
                      isHostGo).isEmpty
                · rw [if_pos hw] at h
                  exact absurd h (by simp)
                · rw [if_neg hw] at h
                  by_cases hcolon2 :
                      ((((r.dropWhile isSpaceGo).dropWhile isDigitGo).tail).dropWhile
                        isHostGo).head? = some ':'
                  · rw [if_pos hcolon2] at h
                    by_cases hd4 :
                        (((((r.dropWhile isSpaceGo).dropWhile isDigitGo).tail).dropWhile
                          isHostGo).tail.takeWhile isDigitGo).isEmpty
                    · rw [if_pos hd4] at h
                      exact absurd h (by simp)
                    · rw [if_neg hd4] at h
                      exact Option.some.inj h
                  · rw [if_neg hcolon2] at h
                    exact absurd h (by simp)
              obtain ⟨suf, hsuf⟩ := head?_colon_exists _ hcolon
              refine ⟨r.takeWhile isSpaceGo, suf, ?_, ?_, ?_, ?_, ?_⟩
              · have e2 : r.dropWhile isSpaceGo = ds ++ ':' :: suf := by
                  conv_lhs =>
                    rw [← List.takeWhile_append_dropWhile (p := isDigitGo)
                      (l := r.dropWhile isSpaceGo)]
                  rw [hds_eq, hsuf]
                have e1 : r = r.takeWhile isSpaceGo ++ (ds ++ ':' :: suf) := by
                  conv_lhs =>
                    rw [← List.takeWhile_append_dropWhile (p := isSpaceGo) (l := r)]
                  rw [e2]
                rw [List.append_assoc]
                exact congrArg (fun l => '-' :: 'L' :: l) e1
              · intro hnil
                exact hws (by rw [hnil]; rfl)
              · intro cc hcc
                exact List.mem_takeWhile_imp hcc
              · intro hnil
                exact hds (by rw [hds_eq, hnil]; rfl)
              · intro cc hcc
                rw [← hds_eq] at hcc
                exact List.mem_takeWhile_imp hcc
            · rw [if_neg hcolon] at h
              exact absurd h (by simp)
      · rw [if_neg hcl] at h
        exact absurd h (by simp)

/-- Soundness of the leftmost search for the second regex. -/
theorem findL2_sound (s ds : Str) (h : findL2 s = some ds) :
    ∃ pre ws suf, s = pre ++ '-' :: 'L' :: (ws ++ ds ++ ':' :: suf) ∧ ws ≠ [] ∧
      (∀ c ∈ ws, isSpaceGo c = true) ∧ ds ≠ [] ∧ (∀ c ∈ ds, isDigitGo c = true) := by
  induction s with
  | nil => simp [findL2] at h
  | cons c cs ih =>
    cases hm : matchL2At (c :: cs) with
    | some p =>
      have hp : p = ds := by
        have h' := h
        simp [findL2, hm] at h'
        exact h'
      subst hp
      rcases matchL2At_sound _ _ hm with ⟨ws, suf, heq, h1, h2, h3, h4⟩
      exact ⟨[], ws, suf, by simpa using heq, h1, h2, h3, h4⟩
    | none =>
      have h' : findL2 cs = some ds := by simpa [findL2, hm] using h
      rcases ih h' with ⟨pre, ws, suf, heq, h1, h2, h3, h4⟩
      exact ⟨c :: pre, ws, suf, by simp [heq], h1, h2, h3, h4⟩

/-- C10: `extractLocalPort` succeeds exactly on the spaced local-forward
form — it returns digits `ds` only when the command decomposes as
`… -L <whitespace><ds>: …` with nonempty whitespace and digits, any
command containing that shape succeeds, the unspaced form
`-L5432:host:5432` yields an error, and `AddTunnel` with an empty local
port therefore rejects such a config. -/
theorem extractLocalPort_spaced_only (cmd : Str) :
    (∀ ds, extractLocalPort cmd = some ds →
      ∃ pre ws suf, cmd = pre ++ '-' :: 'L' :: (ws ++ ds ++ ':' :: suf) ∧ ws ≠ [] ∧
        (∀ c ∈ ws, isSpaceGo c = true) ∧ ds ≠ [] ∧ (∀ c ∈ ds, isDigitGo c = true)) ∧
    ((∃ pre ws ds suf, cmd = pre ++ '-' :: 'L' :: (ws ++ ds ++ ':' :: suf) ∧ ws ≠ [] ∧
        (∀ c ∈ ws, isSpaceGo c = true) ∧ ds ≠ [] ∧ (∀ c ∈ ds, isDigitGo c = true)) →
      (extractLocalPort cmd).isSome = true) ∧
    extractLocalPort (str "ssh -L5432:host:5432 user@host") = none ∧
    addTunnel ⟨[], []⟩
        ⟨str "nospace", str "ssh -L5432:host:5432 user@host", [], true, false⟩ freeWorld =
      .error (str "could not extract local port from command") := by
  refine ⟨?_, ?_, by rfl, by rfl⟩
  · intro ds h
    unfold extractLocalPort at h
    cases h1 : findL1 cmd with
    | some p =>
      rw [h1] at h
      have hp : p = ds := Option.some.inj h
      subst hp
      exact findL1_sound _ _ h1
    | none =>
      rw [h1] at h
      exact findL2_sound _ _ h
  · rintro ⟨pre, ws, ds, suf, heq, h1, h2, h3, h4⟩
    have hm : (matchL1At ('-' :: 'L' :: (ws ++ ds ++ ':' :: suf))).isSome = true := by
      rw [matchL1At_complete ws ds suf h1 h2 h3 h4]
      rfl
    have hf : (findL1 cmd).isSome = true := by
      rw [heq]
      exact findL1_append_isSome pre _ hm
    unfold extractLocalPort
    cases h1' : findL1 cmd with
    | some p => simp
    | none =>
      rw [h1'] at hf
      simp at hf

/-- Witness for C10: a command in the spaced form is accepted. -/
theorem extractLocalPort_spaced_only_witness :
    (∃ pre ws ds suf,
      str "ssh -L 5432:db:5432 user@host" = pre ++ '-' :: 'L' :: (ws ++ ds ++ ':' :: suf) ∧
        ws ≠ [] ∧ (∀ c ∈ ws, isSpaceGo c = true) ∧ ds ≠ [] ∧
        (∀ c ∈ ds, isDigitGo c = true)) ∧
    (extractLocalPort (str "ssh -L 5432:db:5432 user@host")).isSome = true := by
  have hdec : ∃ pre ws ds suf,
      str "ssh -L 5432:db:5432 user@host" = pre ++ '-' :: 'L' :: (ws ++ ds ++ ':' :: suf) ∧
        ws ≠ [] ∧ (∀ c ∈ ws, isSpaceGo c = true) ∧ ds ≠ [] ∧
        (∀ c ∈ ds, isDigitGo c = true) :=
    ⟨str "ssh ", [' '], str "5432", str "db:5432 user@host",
      by decide, by decide, by decide, by decide, by decide⟩
  exact ⟨hdec, (extractLocalPort_spaced_only (str "ssh -L 5432:db:5432 user@host")).2.1 hdec⟩
